import Mathlib

/-!
Shallow embedding of the volatility forecasting pipeline of this repository:
src/ml/feature_engineering.py (FeatureEngineering), src/ml/train_model.py
(VolatilityModel.prepare_data) and src/ml/predict.py (VolatilityPredictor,
predict_batch).

Embedding conventions:
* A pandas DataFrame is a `List` of row structures, one structure per row.
* A float column that can hold NaN is `Option ℚ` (`none` models NaN); raw
  input columns (OHLCV, dates) are never NaN and are plain values.
* `np.log` and `np.sqrt` are external numeric routines of the float library;
  the embedding abstracts them as explicit function parameters
  `ln sq : ℚ → ℚ`, threaded through the pipeline exactly where the source
  calls `np.log` / takes a square root (`rolling(...).std()`, `np.sqrt`).
  Input close prices are assumed positive, so `ln` is only ever applied to
  positive ratios and totality of the parameter is harmless.
* IEEE float division by zero inside the RSI computation (`avg_gain /
  avg_loss` with `avg_loss == 0`) is mirrored by an explicit case split:
  positive/0 gives +inf, which makes `RSI = 100 - 100/(1 + inf) = 100`;
  0/0 gives NaN.  `ℚ` has no inf/NaN, so the embedding cases on
  `avg_loss = 0` directly, producing the same observable column values.
* `pandas.groupby('ts_code')[col].transform(f)` is modelled per row: the row
  at overall position i with symbol s receives element `rank` of
  `f (series of column col over the rows with symbol s, in row order)`,
  where `rank` is the number of earlier rows with symbol s.  This is exactly
  the groupby/transform alignment contract (groups keep row order, results
  are realigned to the original index).
-/

namespace VolPipe

abbrev OQ := Option ℚ

/-- Elementwise binary float operation with NaN propagation
(pandas column arithmetic). -/
def opt2 (f : ℚ → ℚ → ℚ) : OQ → OQ → OQ
  | some a, some b => some (f a b)
  | _, _ => none

/-- `Series.shift(k)` for `k ≥ 0`: the first `k` positions become NaN, the
remaining positions take the value `k` steps earlier; length is preserved. -/
def shiftPos (k : Nat) (xs : List OQ) : List OQ :=
  List.replicate (min k xs.length) none ++ xs.take (xs.length - k)

/-- `Series.shift(-1)`: every position takes the value one step later, the
last position becomes NaN; length is preserved. -/
def shiftNeg1 : List OQ → List OQ
  | [] => []
  | _ :: xs => xs ++ [none]

/-- All-of-window check: a rolling aggregation with the default
`min_periods = window` yields NaN as soon as one of the `window` positions
in the window is NaN. -/
def allSome : List OQ → Option (List ℚ)
  | [] => some []
  | none :: _ => none
  | some x :: xs => (allSome xs).map (x :: ·)

/-- Backward-looking window of width `w` ending at position `i` (the pandas
rolling-window geometry), as the slice of positions `i+1-w .. i`. -/
def windowEndingAt (xs : List OQ) (w i : Nat) : List OQ :=
  (xs.drop (i + 1 - w)).take w

/-- `Series.rolling(window=w)` applied with aggregation `f` over the complete
window of float values; positions with an incomplete window (head warm-up or
a NaN inside the window) are NaN. -/
def rollingApply (w : Nat) (f : List ℚ → OQ) (xs : List OQ) : List OQ :=
  (List.range xs.length).map fun i =>
    if w ≤ i + 1 then
      match allSome (windowEndingAt xs w i) with
      | some vals => f vals
      | none => none
    else none

/-- Arithmetic mean of a list of rationals (`n` is never 0 at use sites). -/
def listMean (vals : List ℚ) : ℚ := vals.sum / (vals.length : ℚ)

/-- Sample variance with `ddof = 1` (the pandas `std` default squared). -/
def sampleVar (vals : List ℚ) : ℚ :=
  (vals.map fun v => (v - listMean vals) ^ 2).sum / ((vals.length : ℚ) - 1)

/-- `Series.rolling(window=w).std()` (pandas default `ddof = 1`), with the
square-root routine `sq` supplied as a parameter.  A window of width 1 has
zero degrees of freedom and yields NaN. -/
def rollingStd (sq : ℚ → ℚ) (w : Nat) (xs : List OQ) : List OQ :=
  rollingApply w (fun vals => if vals.length ≤ 1 then none else some (sq (sampleVar vals))) xs

/-- `Series.rolling(window=w).mean()`. -/
def rollingMean (w : Nat) (xs : List OQ) : List OQ :=
  rollingApply w (fun vals => some (listMean vals)) xs

/-- `Series.diff(1)`: elementwise difference with the previous value,
NaN at the head. -/
def diff1 (xs : List OQ) : List OQ :=
  List.zipWith (opt2 (· - ·)) xs (shiftPos 1 xs)

/-- One step of `Series.ewm(adjust=False, ignore_na=False).mean()` (the
pandas defaults used throughout `add_features`).  State: the running
weighted average (`none` until the first observation) and the relative old
weight.  On an observed value the old weight first decays by `1 - a` and the
new average is `(wt·m + a·x)/(wt + a)`; on a NaN the average is emitted
unchanged while the old weight still decays (ignore_na=False).  The pandas
source skips the update when the new value equals the current average; that
is a pure optimisation, since the update formula is then a fixpoint. -/
def ewmGo (a : ℚ) : Option ℚ → ℚ → List OQ → List OQ
  | _, _, [] => []
  | none, wt, none :: rest => none :: ewmGo a none wt rest
  | none, _, some x :: rest => some x :: ewmGo a (some x) 1 rest
  | some m, wt, none :: rest => some m :: ewmGo a (some m) (wt * (1 - a)) rest
  | some m, wt, some x :: rest =>
      let d := wt * (1 - a)
      let m2 := (d * m + a * x) / (d + a)
      some m2 :: ewmGo a (some m2) 1 rest

/-- `Series.ewm(alpha=a, adjust=False).mean()`. -/
def ewmMean (a : ℚ) (xs : List OQ) : List OQ := ewmGo a none 1 xs

/-- Per-symbol daily log return series, feature_engineering.py line 23:
`np.log(x / x.shift(1))`. -/
def logReturnSeries (ln : ℚ → ℚ) (xs : List OQ) : List OQ :=
  (List.zipWith (opt2 (· / ·)) xs (shiftPos 1 xs)).map (Option.map ln)

/-- Combination step of `calculate_rsi`: `rs = avg_gain / avg_loss;
rsi = 100 - 100 / (1 + rs)` under IEEE semantics.  With `avg_loss = 0` and
`avg_gain > 0`, `rs = +inf` and the formula collapses to 100; with both
averages 0, `rs = NaN` and the RSI is NaN. -/
def rsiCombine : OQ → OQ → OQ
  | some g, some l =>
      if l = 0 then (if g = 0 then none else some 100)
      else some (100 - 100 / (1 + g / l))
  | _, _ => none

/-- `calculate_rsi(series, window)` of feature_engineering.py lines 61-69:
gains and losses from `diff(1)` via `mask`, Wilder smoothing with
`ewm(com=window-1, adjust=False)` (so `alpha = 1/window`), then the RSI
formula. -/
def rsiSeries (window : Nat) (xs : List OQ) : List OQ :=
  let d := diff1 xs
  let gain := d.map (Option.map fun v => if v < 0 then 0 else v)
  let loss := (d.map (Option.map fun v => if v > 0 then 0 else v)).map (Option.map abs)
  let avg_gain := ewmMean (1 / (window : ℚ)) gain
  let avg_loss := ewmMean (1 / (window : ℚ)) loss
  List.zipWith rsiCombine avg_gain avg_loss

/-- One raw OHLCV bar as returned by the external data source (spec §3
RawBar); `op` stands for the `open` column (a Lean keyword). -/
structure Bar where
  ts_code : String
  trade_date : Nat
  op : ℚ
  high : ℚ
  low : ℚ
  close : ℚ
  vol : ℚ
  deriving DecidableEq

/-- A row after `calculate_future_volatility`: the bar plus the two derived
columns `log_return` and `future_volatility`. -/
structure TRow where
  bar : Bar
  log_return : OQ
  future_volatility : OQ
  deriving DecidableEq

/-- A row after `add_features`: `TRow` plus every generated feature column.
The intermediate `EMA_fast`/`EMA_slow` columns are dropped by the source and
are not part of the row. -/
structure FRow where
  bar : Bar
  log_return : OQ
  future_volatility : OQ
  close_lag1 : OQ
  close_lag3 : OQ
  close_lag5 : OQ
  vol_lag1 : OQ
  vol_lag3 : OQ
  vol_lag5 : OQ
  log_return_lag1 : OQ
  log_return_lag3 : OQ
  log_return_lag5 : OQ
  MA_close_5 : OQ
  MA_close_10 : OQ
  MA_close_20 : OQ
  RSI_14 : OQ
  MACD : OQ
  Signal_Line : OQ
  MACD_Histogram : OQ
  day_of_week : Nat
  month : Nat
  deriving DecidableEq

/-- Generic model of a block of `groupby('ts_code')` transforms: each row is
rebuilt by `mk group row rank`, where `group` is the list of rows sharing
the row's symbol (in row order) and `rank` is the row's position inside that
group.  All transforms of one block share this group/rank geometry, so one
walk realigns every transformed column at once. -/
def groupWalkGo (sym : α → String) (mk : List α → α → Nat → β) (full : List α) :
    List α → List α → List β
  | _, [] => []
  | seen, r :: rest =>
      mk (full.filter fun x => decide (sym x = sym r)) r
          ((seen.filter fun x => decide (sym x = sym r)).length) ::
        groupWalkGo sym mk full (seen ++ [r]) rest

def groupWalk (sym : α → String) (mk : List α → α → Nat → β) (df : List α) : List β :=
  groupWalkGo sym mk df [] df

/-- Strict lexicographic comparison of char lists by code point, the string
order underlying the `ts_code` sort key. -/
def charListLtb : List Char → List Char → Bool
  | _, [] => false
  | [], _ :: _ => true
  | a :: as, b :: bs =>
      if a.toNat < b.toNat then true
      else if b.toNat < a.toNat then false
      else charListLtb as bs

/-- The sort key of `df.sort_values(by=['ts_code', 'trade_date'])`
(feature_engineering.py line 20): lexicographic on (symbol, date), with the
symbols compared as strings.  pandas leaves the order of duplicate keys
unspecified; the embedding resolves ties stably, which is one of the
permitted behaviours. -/
def barLe (a b : Bar) : Prop :=
  charListLtb a.ts_code.data b.ts_code.data = true ∨
    (a.ts_code = b.ts_code ∧ a.trade_date ≤ b.trade_date)

instance : DecidableRel barLe := fun a b => by unfold barLe; infer_instance

def sortBars (df : List Bar) : List Bar := List.insertionSort barLe df

/-- Row builder for `calculate_future_volatility`: attaches the per-symbol
`log_return` column (`transform(np.log(x / x.shift(1)))` over `close`) and
the `future_volatility` column (`transform(x.shift(-1).rolling(w).std())`
over the freshly attached `log_return` column; by the transform alignment
contract the group series of that column is exactly
`logReturnSeries ln (group closes)`). -/
def targetRow (ln sq : ℚ → ℚ) (window_size : Nat) (g : List Bar) (b : Bar) (k : Nat) : TRow :=
  let lrs := logReturnSeries ln (g.map fun x => some x.close)
  { bar := b
    log_return := lrs.getD k none
    future_volatility := (rollingStd sq window_size (shiftNeg1 lrs)).getD k none }

/-- `FeatureEngineering.calculate_future_volatility`
(feature_engineering.py lines 9-32). -/
def calculate_future_volatility (ln sq : ℚ → ℚ) (df : List Bar)
    (window_size : Nat := 5) : List TRow :=
  groupWalk Bar.ts_code (targetRow ln sq window_size) (sortBars df)

/-- `pandas.to_datetime(date).dt.dayofweek` (Monday = 0 .. Sunday = 6) for a
YYYYMMDD integer date, via Sakamoto's day-of-week algorithm. -/
def dayOfWeek (date : Nat) : Nat :=
  let y0 := date / 10000
  let m := date / 100 % 100
  let d := date % 100
  let y := if m < 3 then y0 - 1 else y0
  let t := [0, 3, 2, 5, 0, 3, 5, 1, 4, 6, 2, 4]
  ((y + y / 4 - y / 100 + y / 400 + t.getD (m - 1) 0 + d) + 6) % 7

/-- Row builder for `add_features` (feature_engineering.py lines 34-105):
every generated column of the row, each computed from the row's symbol
group exactly as the corresponding `groupby('ts_code')` transform does.
`MACD` is the elementwise difference of the two close EMAs, `Signal_Line`
the EMA(span=9) of the `MACD` column (whose group series is that same
elementwise difference), `MACD_Histogram` their difference; `ewm(span=s)`
means `alpha = 2/(s+1)`. -/
def featureRow (g : List TRow) (r : TRow) (k : Nat) : FRow :=
  let closes := g.map fun x => some x.bar.close
  let vols := g.map fun x => some x.bar.vol
  let lrets := g.map TRow.log_return
  let ema_fast := ewmMean (2 / 13) closes
  let ema_slow := ewmMean (2 / 27) closes
  let macds := List.zipWith (opt2 (· - ·)) ema_fast ema_slow
  let signals := ewmMean (1 / 5) macds
  { bar := r.bar
    log_return := r.log_return
    future_volatility := r.future_volatility
    close_lag1 := (shiftPos 1 closes).getD k none
    close_lag3 := (shiftPos 3 closes).getD k none
    close_lag5 := (shiftPos 5 closes).getD k none
    vol_lag1 := (shiftPos 1 vols).getD k none
    vol_lag3 := (shiftPos 3 vols).getD k none
    vol_lag5 := (shiftPos 5 vols).getD k none
    log_return_lag1 := (shiftPos 1 lrets).getD k none
    log_return_lag3 := (shiftPos 3 lrets).getD k none
    log_return_lag5 := (shiftPos 5 lrets).getD k none
    MA_close_5 := (rollingMean 5 closes).getD k none
    MA_close_10 := (rollingMean 10 closes).getD k none
    MA_close_20 := (rollingMean 20 closes).getD k none
    RSI_14 := (rsiSeries 14 closes).getD k none
    MACD := macds.getD k none
    Signal_Line := signals.getD k none
    MACD_Histogram := (List.zipWith (opt2 (· - ·)) macds signals).getD k none
    day_of_week := dayOfWeek r.bar.trade_date
    month := r.bar.trade_date / 100 % 100 }

/-- `FeatureEngineering.add_features` (feature_engineering.py lines 34-105).
The input table is not re-sorted; the calendar columns are per-row functions
of `trade_date`. -/
def add_features (df : List TRow) : List FRow :=
  groupWalk (fun r => r.bar.ts_code) featureRow df

/-- Whether no generated column of a row is NaN; the raw OHLCV and date
columns are never NaN, so this is exactly the per-row `dropna()` test. -/
def frowComplete (r : FRow) : Bool :=
  r.log_return.isSome && r.future_volatility.isSome &&
  r.close_lag1.isSome && r.close_lag3.isSome && r.close_lag5.isSome &&
  r.vol_lag1.isSome && r.vol_lag3.isSome && r.vol_lag5.isSome &&
  r.log_return_lag1.isSome && r.log_return_lag3.isSome && r.log_return_lag5.isSome &&
  r.MA_close_5.isSome && r.MA_close_10.isSome && r.MA_close_20.isSome &&
  r.RSI_14.isSome && r.MACD.isSome && r.Signal_Line.isSome && r.MACD_Histogram.isSome

/-- `FeatureEngineering.clean_data` (feature_engineering.py lines 107-120):
`df.dropna()`. -/
def clean_data (df : List FRow) : List FRow :=
  df.filter frowComplete

/-- Sort key of `df.sort_values(by='trade_date')` in
`VolatilityModel.prepare_data` (train_model.py line 52): date only, ties in
unspecified order (resolved stably here). -/
def dateLe (a b : FRow) : Prop := a.bar.trade_date ≤ b.bar.trade_date

instance : DecidableRel dateLe := fun a b => by unfold dateLe; infer_instance

/-- `VolatilityModel.prepare_data` (train_model.py lines 25-75), at the row
level: sort the whole table by `trade_date` and cut by absolute position
into train / validation / test segments.  `int(total_samples * ratio)` on
nonnegative floats truncates downward, i.e. takes the rational floor (the
float products `n * 0.7` and `n * 0.15` round to the exact value whenever
it is an integer and are otherwise nowhere near an integer, for every
realistic row count).  The X/y column split of the source selects columns
inside each returned segment and does not move rows. -/
def prepare_data (df : List FRow) (train_ratio : ℚ := 7 / 10)
    (val_ratio : ℚ := 3 / 20) : List FRow × List FRow × List FRow :=
  let df_sorted := List.insertionSort dateLe df
  let total_samples := df_sorted.length
  let train_size := (((total_samples : ℚ) * train_ratio).floor).toNat
  let val_size := (((total_samples : ℚ) * val_ratio).floor).toNat
  (df_sorted.take train_size,
   (df_sorted.drop train_size).take val_size,
   df_sorted.drop (train_size + val_size))

/-- `sklearn.metrics.r2_score` with its defaults: NaN (plus a warning) when
fewer than two samples are scored; otherwise `1 - SS_res/SS_tot`, with the
zero-variance denominator handled as 1.0 for a perfect fit and 0.0
otherwise (`force_finite=True`), never an exception. -/
def r2_score (actual preds : List ℚ) : OQ :=
  if actual.length < 2 then none
  else
    let ss_res := (List.zipWith (fun a p => (a - p) ^ 2) actual preds).sum
    let ss_tot := (actual.map fun a => (a - listMean actual) ^ 2).sum
    if ss_tot = 0 then (if ss_res = 0 then some 1 else some 0)
    else some (1 - ss_res / ss_tot)

/-- The metrics record of `VolatilityPredictor.predict` (predict.py lines
130-159): `mae`/`mse`/`rmse`/`r2`, each `none` exactly when the float the
source computes is NaN (all four when no row is scoreable, `r2` also for a
single scoreable row). -/
structure Metrics where
  mae : OQ
  mse : OQ
  rmse : OQ
  r2 : OQ
  deriving DecidableEq

def mkMetrics (sq : ℚ → ℚ) (actual preds : List ℚ) : Metrics :=
  if actual.length = 0 then ⟨none, none, none, none⟩
  else
    let mae := (List.zipWith (fun a p => |a - p|) actual preds).sum / (actual.length : ℚ)
    let mse := (List.zipWith (fun a p => (a - p) ^ 2) actual preds).sum / (actual.length : ℚ)
    ⟨some mae, some mse, some (sq mse), r2_score actual preds⟩

/-- The success payload of `VolatilityPredictor.predict` (predict.py lines
144-165).  Dates stay in YYYYMMDD form (the strftime rendering of
`actual_vs_predicted` is out of scope). -/
structure PredResult where
  ts_code : String
  total_records : Nat
  valid_predictions : Nat
  predictions : List (Nat × ℚ)
  metrics : Metrics
  actual_vs_predicted : List (Nat × ℚ × ℚ)
  deriving DecidableEq

/-- The two ValueError raises reachable from `predict`: predict.py line 61
(`未获取到 ... 的数据`, spec: DataUnavailable) and line 115
(`没有有效的预测数据`, spec: InsufficientHistory). -/
inductive PredErr where
  | dataUnavailable
  | insufficientHistory
  deriving DecidableEq

/-- The feature matrix columns of one row: every column of the feature table
except the dropped `ts_code`, `trade_date`, `log_return` and
`future_volatility` (predict.py lines 109-110), in table order.  Only
evaluated on feature-complete rows, where every `getD 0` hits a present
value. -/
def featVec (r : FRow) : List ℚ :=
  [r.bar.op, r.bar.high, r.bar.low, r.bar.close, r.bar.vol,
   r.close_lag1.getD 0, r.close_lag3.getD 0, r.close_lag5.getD 0,
   r.vol_lag1.getD 0, r.vol_lag3.getD 0, r.vol_lag5.getD 0,
   r.log_return_lag1.getD 0, r.log_return_lag3.getD 0, r.log_return_lag5.getD 0,
   r.MA_close_5.getD 0, r.MA_close_10.getD 0, r.MA_close_20.getD 0,
   r.RSI_14.getD 0, r.MACD.getD 0, r.Signal_Line.getD 0, r.MACD_Histogram.getD 0,
   (r.day_of_week : ℚ), (r.month : ℚ)]

/-- Whether a row belongs to `X = df_feat[feature_cols].dropna()`
(predict.py line 112): no NaN among the feature columns; the target and
`log_return` are not consulted. -/
def xComplete (r : FRow) : Bool :=
  r.close_lag1.isSome && r.close_lag3.isSome && r.close_lag5.isSome &&
  r.vol_lag1.isSome && r.vol_lag3.isSome && r.vol_lag5.isSome &&
  r.log_return_lag1.isSome && r.log_return_lag3.isSome && r.log_return_lag5.isSome &&
  r.MA_close_5.isSome && r.MA_close_10.isSome && r.MA_close_20.isSome &&
  r.RSI_14.isSome && r.MACD.isSome && r.Signal_Line.isSome && r.MACD_Histogram.isSome

/-- `VolatilityPredictor._prepare_features` (predict.py lines 66-83): the
feature table of the serving path, target computation plus features. -/
def servingFeatures (ln sq : ℚ → ℚ) (window_size : Nat) (bars : List Bar) : List FRow :=
  add_features (calculate_future_volatility ln sq bars window_size)

/-- The `common_index` rows of `VolatilityPredictor.predict` (predict.py
lines 125-126): `df_valid.index.intersection(X.index)`, i.e. the rows that
are feature-complete and additionally have a defined `future_volatility`,
in table order. -/
def scoreableRows (ln sq : ℚ → ℚ) (window_size : Nat) (bars : List Bar) : List FRow :=
  (servingFeatures ln sq window_size bars).filter fun r =>
    xComplete r && r.future_volatility.isSome

/-- `VolatilityPredictor.predict` (predict.py lines 85-167).  The external
pieces are parameters: `model` is the loaded regressor's rowwise `predict`,
`source` the data-fetch collaborator (`None`/empty both mean no data).
The returned `predictions` and `actual_vs_predicted` are built from exactly
the `common_index` rows, and the metrics compare the model outputs with the
actual volatility on them, aligned by row identity. -/
def predict (ln sq : ℚ → ℚ) (model : List ℚ → ℚ) (source : String → Option (List Bar))
    (ts_code : String) (window_size : Nat := 5) : Except PredErr PredResult :=
  match source ts_code with
  | none => .error .dataUnavailable
  | some bars =>
      if bars.isEmpty then .error .dataUnavailable
      else
        let df_feat := servingFeatures ln sq window_size bars
        let xRows := df_feat.filter xComplete
        if xRows.isEmpty then .error .insufficientHistory
        else
          let common := df_feat.filter fun r => xComplete r && r.future_volatility.isSome
          let actual := common.map fun r => r.future_volatility.getD 0
          let aligned := common.map fun r => model (featVec r)
          .ok { ts_code := ts_code
                total_records := bars.length
                valid_predictions := actual.length
                predictions := common.map fun r => (r.bar.trade_date, model (featVec r))
                metrics := mkMetrics sq actual aligned
                actual_vs_predicted :=
                  common.map fun r =>
                    (r.bar.trade_date, r.future_volatility.getD 0, model (featVec r)) }

/-- One entry of the `predict_batch` result list: the success payload or the
`{'ts_code': code, 'error': str(e)}` marker. -/
inductive BatchEntry where
  | done (r : PredResult)
  | failed (ts_code : String) (e : PredErr)
  deriving DecidableEq

/-- The body of the `predict_batch` loop for one symbol (predict.py lines
240-247): the per-symbol try/except. -/
def batchStep (ln sq : ℚ → ℚ) (model : List ℚ → ℚ) (source : String → Option (List Bar))
    (window_size : Nat) (code : String) : BatchEntry :=
  match predict ln sq model source code window_size with
  | .ok r => .done r
  | .error e => .failed code e

/-- `predict_batch` (predict.py lines 220-257), minus the console summary. -/
def predict_batch (ln sq : ℚ → ℚ) (model : List ℚ → ℚ)
    (source : String → Option (List Bar)) (stock_codes : List String)
    (window_size : Nat := 5) : List BatchEntry :=
  stock_codes.map (batchStep ln sq model source window_size)

/-- The summary count of predict.py line 254:
`sum(1 for r in results if 'metrics' in r and r['metrics']['mae'] is not None)`.
Error markers carry no `metrics` key. -/
def success_count (results : List BatchEntry) : Nat :=
  results.countP fun e =>
    match e with
    | .done r => r.metrics.mae.isSome
    | .failed _ _ => false

/-- Rebuild of a group walk restricted to one symbol group `g`, starting at
rank `k` (proof device for the per-symbol isolation arguments). -/
def buildG (mk : List α → α → Nat → β) (g : List α) : Nat → List α → List β
  | _, [] => []
  | k, r :: rest => mk g r k :: buildG mk g (k + 1) rest

/-- Follows the spec's words (§4.1), for comparison with the source:
`future_volatility[t] = sampleStdDev(log_return[t+1 .. t+windowSize])`
(ddof = 1), a forward window over the `windowSize` rows after `t`, undefined
whenever that window is incomplete or touches an undefined return. -/
def specFutureVolatility (sq : ℚ → ℚ) (windowSize : Nat) (lrs : List OQ) : List OQ :=
  (List.range lrs.length).map fun t =>
    if ((lrs.drop (t + 1)).take windowSize).length = windowSize then
      match allSome ((lrs.drop (t + 1)).take windowSize) with
      | some vals => if vals.length ≤ 1 then none else some (sq (sampleVar vals))
      | none => none
    else none

/-- A bar whose four prices all equal `c`, with unit volume. -/
def mkBar (s : String) (d : Nat) (c : ℚ) : Bar :=
  { ts_code := s, trade_date := d, op := c, high := c, low := c, close := c, vol := 1 }

/-- Eight consecutive constant-price bars of one symbol (the spec's
constant-price scenario, §8). -/
def constBars8 : List Bar :=
  (List.range 8).map fun i => mkBar "A" (20240101 + i) 1

/-- `n` consecutive bars of one symbol whose close alternates between 1 and
2: every five-return window of its log-return series has the same sample
variance, so every defined `future_volatility` value is identical. -/
def altBars (n : Nat) : List Bar :=
  (List.range n).map fun i => mkBar "A" (20240101 + i) (if i % 2 = 0 then 1 else 2)

/-- A stand-in for the external log routine in concrete runs; only its
values at the concrete price ratios matter. -/
def lnQ (x : ℚ) : ℚ := x - 1

/-- Batch scenario source (spec §8): no rows for BAD_CODE, a 20-bar series
for any other symbol. -/
def scenarioSource (c : String) : Option (List Bar) :=
  if c = "BAD_CODE" then none else some (altBars 20)

/-- The success payload of a prediction, with a fallback for error results
(used only to phrase closed concrete statements). -/
def resultOr (e : Except PredErr PredResult) (d : PredResult) : PredResult :=
  match e with
  | .ok r => r
  | .error _ => d

def emptyResult : PredResult :=
  { ts_code := "", total_records := 0, valid_predictions := 0, predictions := [],
    metrics := { mae := none, mse := none, rmse := none, r2 := none },
    actual_vs_predicted := [] }

/-- The predictions list of a serving result, empty on error. -/
def predictionsOf (e : Except PredErr PredResult) : List (Nat × ℚ) :=
  (resultOr e emptyResult).predictions

/-- The metrics of a serving result, `none` on error. -/
def metricsOf (e : Except PredErr PredResult) : Option Metrics :=
  match e with
  | .ok r => some r.metrics
  | .error _ => none

def isFailed : BatchEntry → Bool
  | .failed _ _ => true
  | .done _ => false

def entryMetrics : BatchEntry → Option Metrics
  | .done r => some r.metrics
  | .failed _ _ => none

/-- Element access into a batch result list with an error-marker fallback. -/
def entryOr (es : List BatchEntry) (i : Nat) : BatchEntry :=
  es.getD i (.failed "" .dataUnavailable)

/-- An all-undefined feature row, used only as a `getD` fallback in closed
concrete statements. -/
def emptyFRow : FRow :=
  { bar := mkBar "" 0 0, log_return := none, future_volatility := none,
    close_lag1 := none, close_lag3 := none, close_lag5 := none,
    vol_lag1 := none, vol_lag3 := none, vol_lag5 := none,
    log_return_lag1 := none, log_return_lag3 := none, log_return_lag5 := none,
    MA_close_5 := none, MA_close_10 := none, MA_close_20 := none,
    RSI_14 := none, MACD := none, Signal_Line := none, MACD_Histogram := none,
    day_of_week := 0, month := 0 }

/-- A two-row single-symbol table whose second close strictly rises: its
second RSI value is the no-loss boundary case 100. -/
def rsiPair : List TRow :=
  [{ bar := mkBar "A" 20240101 1, log_return := none, future_volatility := none },
   { bar := mkBar "A" 20240102 2, log_return := none, future_volatility := none }]

section Lemmas

/- Shared list-level lemmas about the embedding machinery.  None of these is
the theorem, witness or counterexample of a claim. -/

theorem char_toNat_inj {a b : Char} (h : a.toNat = b.toNat) : a = b := by
  apply Char.ext
  apply UInt32.ext
  exact h

theorem charListLtb_trans : ∀ (as bs cs : List Char),
    charListLtb as bs = true → charListLtb bs cs = true → charListLtb as cs = true := by
  intro as
  induction as with
  | nil =>
    intro bs cs h1 h2
    cases bs with
    | nil => simp [charListLtb] at h1
    | cons b bt =>
      cases cs with
      | nil => simp [charListLtb] at h2
      | cons c ct => rfl
  | cons a atl ih =>
    intro bs cs h1 h2
    cases bs with
    | nil => simp [charListLtb] at h1
    | cons b bt =>
      cases cs with
      | nil => simp [charListLtb] at h2
      | cons c ct =>
        rw [charListLtb] at h1 h2 ⊢
        by_cases hab : a.toNat < b.toNat
        · rw [if_pos hab] at h1
          have hbc : b.toNat ≤ c.toNat := by
            by_cases h : b.toNat < c.toNat
            · omega
            · rw [if_neg h] at h2
              by_cases h3 : c.toNat < b.toNat
              · rw [if_pos h3] at h2; simp at h2
              · omega
          rw [if_pos (by omega)]
        · rw [if_neg hab] at h1
          by_cases hba : b.toNat < a.toNat
          · rw [if_pos hba] at h1; simp at h1
          · rw [if_neg hba] at h1
            by_cases hbc : b.toNat < c.toNat
            · rw [if_pos (by omega)]
            · rw [if_neg hbc] at h2
              by_cases hcb : c.toNat < b.toNat
              · rw [if_pos hcb] at h2; simp at h2
              · rw [if_neg hcb] at h2
                rw [if_neg (by omega), if_neg (by omega)]
                exact ih bt ct h1 h2

theorem charListLtb_eq_of_not : ∀ (as bs : List Char),
    charListLtb as bs = false → charListLtb bs as = false → as = bs := by
  intro as
  induction as with
  | nil =>
    intro bs h1 _
    cases bs with
    | nil => rfl
    | cons b bt => simp [charListLtb] at h1
  | cons a atl ih =>
    intro bs h1 h2
    cases bs with
    | nil => simp [charListLtb] at h2
    | cons b bt =>
      rw [charListLtb] at h1 h2
      by_cases hab : a.toNat < b.toNat
      · rw [if_pos hab] at h1; simp at h1
      · by_cases hba : b.toNat < a.toNat
        · rw [if_pos hba] at h2; simp at h2
        · rw [if_neg hab, if_neg hba] at h1
          rw [if_neg hba, if_neg hab] at h2
          have hc : a = b := char_toNat_inj (by omega)
          rw [hc, ih bt h1 h2]

/-- The bar sort key is total. -/
theorem barLe_total : ∀ a b : Bar, barLe a b ∨ barLe b a := by
  intro a b
  by_cases h1 : charListLtb a.ts_code.data b.ts_code.data = true
  · exact Or.inl (Or.inl h1)
  · by_cases h2 : charListLtb b.ts_code.data a.ts_code.data = true
    · exact Or.inr (Or.inl h2)
    · have hd : a.ts_code.data = b.ts_code.data :=
        charListLtb_eq_of_not _ _ (by revert h1; cases charListLtb a.ts_code.data b.ts_code.data <;> simp)
          (by revert h2; cases charListLtb b.ts_code.data a.ts_code.data <;> simp)
      have hs : a.ts_code = b.ts_code := String.toList_inj.mp hd
      rcases Nat.le_total a.trade_date b.trade_date with h | h
      · exact Or.inl (Or.inr ⟨hs, h⟩)
      · exact Or.inr (Or.inr ⟨hs.symm, h⟩)

/-- The bar sort key is transitive. -/
theorem barLe_trans : ∀ a b c : Bar, barLe a b → barLe b c → barLe a c := by
  rintro a b c (h | ⟨h, h2⟩) (g | ⟨g, g2⟩)
  · exact Or.inl (charListLtb_trans _ _ _ h g)
  · exact Or.inl (g ▸ h)
  · exact Or.inl (h ▸ g)
  · exact Or.inr ⟨h.trans g, h2.trans g2⟩

theorem orderedInsert_eq_cons (r : α → α → Prop) [DecidableRel r] (a : α) (l : List α)
    (h : ∀ z ∈ l, r a z) : l.orderedInsert r a = a :: l := by
  cases l with
  | nil => rfl
  | cons z t => simp [List.orderedInsert, h z (List.mem_cons_self z t)]

/-- Filtering commutes with a stable ordered insertion into a sorted list. -/
theorem filter_orderedInsert (r : α → α → Prop) [DecidableRel r] [IsTrans α r]
    (p : α → Bool) (a : α) (l : List α) (hs : l.Sorted r) :
    (l.orderedInsert r a).filter p =
      if p a then (l.filter p).orderedInsert r a else l.filter p := by
  induction l with
  | nil => cases hpa : p a <;> simp [List.orderedInsert, List.filter, hpa]
  | cons b t ih =>
    by_cases hab : r a b
    · rw [List.orderedInsert, if_pos hab]
      by_cases hpa : p a
      · rw [if_pos hpa]
        by_cases hpb : p b
        · simp [List.filter_cons, hpa, hpb, List.orderedInsert, hab]
        · have hins : (t.filter p).orderedInsert r a = a :: t.filter p := by
            refine orderedInsert_eq_cons r a _ (fun z hz => ?_)
            have hzt : z ∈ t := (List.mem_filter.mp hz).1
            exact Trans.trans hab (List.rel_of_sorted_cons hs z hzt)
          simp [List.filter_cons, hpa, hpb, hins]
      · simp [List.filter_cons, hpa]
    · rw [List.orderedInsert, if_neg hab]
      have ht : t.Sorted r := hs.of_cons
      by_cases hpb : p b
      · by_cases hpa : p a
        · simp [List.filter_cons, hpb, hpa, ih ht, List.orderedInsert, hab]
        · simp [List.filter_cons, hpb, hpa, ih ht]
      · by_cases hpa : p a
        · simp [List.filter_cons, hpb, hpa, ih ht]
        · simp [List.filter_cons, hpb, hpa, ih ht]

/-- Filtering commutes with a stable insertion sort. -/
theorem filter_insertionSort (r : α → α → Prop) [DecidableRel r] [IsTotal α r] [IsTrans α r]
    (p : α → Bool) (l : List α) :
    (l.insertionSort r).filter p = (l.filter p).insertionSort r := by
  induction l with
  | nil => rfl
  | cons a t ih =>
    rw [List.insertionSort, filter_orderedInsert r p a _ (List.sorted_insertionSort r t), ih,
      List.filter_cons]
    by_cases hpa : p a <;> simp [hpa, List.insertionSort]

/-- The rows of one symbol in a group walk form exactly the walk of that
symbol's group: the transforms of the walk never mix symbols. -/
theorem groupWalkGo_filter (sym : α → String) (symB : β → String)
    (mk : List α → α → Nat → β) (hmk : ∀ g r k, symB (mk g r k) = sym r)
    (S : String) (full : List α) :
    ∀ rest seen, seen ++ rest = full →
      (groupWalkGo sym mk full seen rest).filter (fun b => decide (symB b = S)) =
        buildG mk (full.filter fun x => decide (sym x = S))
          ((seen.filter fun x => decide (sym x = S)).length)
          (rest.filter fun x => decide (sym x = S)) := by
  intro rest
  induction rest with
  | nil => intro seen _; simp [groupWalkGo, buildG]
  | cons r rest ih =>
    intro seen hfull
    have hfull2 : (seen ++ [r]) ++ rest = full := by
      rw [List.append_assoc]; simpa using hfull
    rw [groupWalkGo, List.filter_cons]
    by_cases hS : sym r = S
    · have hgrp : (full.filter fun x => decide (sym x = sym r)) =
          full.filter fun x => decide (sym x = S) := by rw [hS]
      have hrk : ((seen ++ [r]).filter fun x => decide (sym x = S)).length =
          ((seen.filter fun x => decide (sym x = S)).length) + 1 := by
        simp [List.filter_append, hS]
      have hrest : ((r :: rest).filter fun x => decide (sym x = S)) =
          r :: (rest.filter fun x => decide (sym x = S)) := by
        simp [List.filter_cons, hS]
      have hkeep : decide (symB (mk (full.filter fun x => decide (sym x = sym r)) r
          ((seen.filter fun x => decide (sym x = sym r)).length)) = S) = true := by
        simp [hmk, hS]
      rw [if_pos hkeep, ih (seen ++ [r]) hfull2, hrest, buildG, hrk, hgrp]
      have hrank : ((seen.filter fun x => decide (sym x = sym r)).length) =
          ((seen.filter fun x => decide (sym x = S)).length) := by rw [hS]
      rw [hrank]
    · have hdrop : decide (symB (mk (full.filter fun x => decide (sym x = sym r)) r
          ((seen.filter fun x => decide (sym x = sym r)).length)) = S) = false := by
        simp [hmk, hS]
      have hrk : ((seen ++ [r]).filter fun x => decide (sym x = S)).length =
          ((seen.filter fun x => decide (sym x = S)).length) := by
        simp [List.filter_append, hS]
      have hrest : ((r :: rest).filter fun x => decide (sym x = S)) =
          (rest.filter fun x => decide (sym x = S)) := by
        simp [List.filter_cons, hS]
      rw [if_neg (by simp [hdrop]), ih (seen ++ [r]) hfull2, hrk, hrest]

theorem groupWalk_filter (sym : α → String) (symB : β → String)
    (mk : List α → α → Nat → β) (hmk : ∀ g r k, symB (mk g r k) = sym r)
    (S : String) (df : List α) :
    (groupWalk sym mk df).filter (fun b => decide (symB b = S)) =
      buildG mk (df.filter fun x => decide (sym x = S)) 0
        (df.filter fun x => decide (sym x = S)) := by
  have := groupWalkGo_filter sym symB mk hmk S df df [] rfl
  simpa [groupWalk] using this

theorem groupWalkGo_mem (sym : α → String) (mk : List α → α → Nat → β) (full : List α) :
    ∀ rest seen b, b ∈ groupWalkGo sym mk full seen rest →
      ∃ g r k, r ∈ rest ∧ b = mk g r k := by
  intro rest
  induction rest with
  | nil => intro seen b hb; simp [groupWalkGo] at hb
  | cons r rest ih =>
    intro seen b hb
    rw [groupWalkGo] at hb
    rcases List.mem_cons.mp hb with h | h
    · exact ⟨_, r, _, List.mem_cons_self r rest, h⟩
    · rcases ih (seen ++ [r]) b h with ⟨g, x, k, hx, hbx⟩
      exact ⟨g, x, k, List.mem_cons_of_mem r hx, hbx⟩

theorem groupWalk_mem (sym : α → String) (mk : List α → α → Nat → β) (df : List α)
    (b : β) (hb : b ∈ groupWalk sym mk df) : ∃ g r k, r ∈ df ∧ b = mk g r k :=
  groupWalkGo_mem sym mk df df [] b hb

/-- The rows of symbol `S` in the output of `calculate_future_volatility`
are a function of the input rows of symbol `S` alone. -/
theorem calculate_future_volatility_filter (ln sq : ℚ → ℚ) (w : Nat) (S : String)
    (df : List Bar) :
    (calculate_future_volatility ln sq df w).filter (fun r => decide (r.bar.ts_code = S)) =
      buildG (targetRow ln sq w) (sortBars (df.filter fun b => decide (b.ts_code = S))) 0
        (sortBars (df.filter fun b => decide (b.ts_code = S))) := by
  haveI : IsTotal Bar barLe := ⟨barLe_total⟩
  haveI : IsTrans Bar barLe := ⟨barLe_trans⟩
  rw [calculate_future_volatility,
    groupWalk_filter Bar.ts_code (fun r => r.bar.ts_code) (targetRow ln sq w)
      (fun _ _ _ => rfl) S (sortBars df)]
  rw [show ((sortBars df).filter fun b => decide (b.ts_code = S)) =
      sortBars (df.filter fun b => decide (b.ts_code = S)) from
    filter_insertionSort barLe _ df]

/-- The rows of symbol `S` in the output of `add_features` are a function of
the input rows of symbol `S` alone. -/
theorem add_features_filter (S : String) (df : List TRow) :
    (add_features df).filter (fun r => decide (r.bar.ts_code = S)) =
      buildG featureRow (df.filter fun r => decide (r.bar.ts_code = S)) 0
        (df.filter fun r => decide (r.bar.ts_code = S)) :=
  groupWalk_filter (fun r => r.bar.ts_code) (fun r => r.bar.ts_code) featureRow
    (fun _ _ _ => rfl) S df

theorem zipWith_mem_decomp (f : α → β → γ) :
    ∀ (l1 : List α) (l2 : List β) (c : γ), c ∈ List.zipWith f l1 l2 →
      ∃ x y, x ∈ l1 ∧ y ∈ l2 ∧ c = f x y := by
  intro l1
  induction l1 with
  | nil => intro l2 c hc; simp at hc
  | cons a t ih =>
    intro l2 c hc
    cases l2 with
    | nil => simp at hc
    | cons b t2 =>
      rcases List.mem_cons.mp hc with h | h
      · exact ⟨a, b, List.mem_cons_self _ _, List.mem_cons_self _ _, h⟩
      · rcases ih t2 c h with ⟨x, y, hx, hy, hxy⟩
        exact ⟨x, y, List.mem_cons_of_mem _ hx, List.mem_cons_of_mem _ hy, hxy⟩

/-- Nonnegative inputs keep the exponentially weighted mean nonnegative. -/
theorem ewmGo_nonneg (a : ℚ) (ha : 0 < a) :
    ∀ (xs : List OQ), (∀ x ∈ xs, ∀ v : ℚ, x = some v → 0 ≤ v) →
    ∀ (m : Option ℚ), (∀ u : ℚ, m = some u → 0 ≤ u) → ∀ (wt : ℚ), 0 ≤ wt → 1 - a ≥ 0 →
    ∀ y ∈ ewmGo a m wt xs, ∀ v : ℚ, y = some v → 0 ≤ v := by
  intro xs
  induction xs with
  | nil => intro _ m _ wt _ _ y hy; simp [ewmGo] at hy
  | cons x t ih =>
    intro hxs m hm wt hwt ha1 y hy v hv
    cases m with
    | none =>
      cases x with
      | none =>
        rw [ewmGo] at hy
        rcases List.mem_cons.mp hy with h | h
        · subst h; simp at hv
        · exact ih (fun z hz => hxs z (List.mem_cons_of_mem _ hz)) none (by simp) wt hwt ha1 y h v hv
      | some xv =>
        have hx0 : 0 ≤ xv := hxs (some xv) (List.mem_cons_self _ _) xv rfl
        rw [ewmGo] at hy
        rcases List.mem_cons.mp hy with h | h
        · subst h; injection hv with hv2; rw [← hv2]; exact hx0
        · exact ih (fun z hz => hxs z (List.mem_cons_of_mem _ hz)) (some xv)
            (fun u hu => by injection hu with h2; rw [← h2]; exact hx0) 1 (by norm_num) ha1 y h v hv
    | some mv =>
      have hm0 : 0 ≤ mv := hm mv rfl
      cases x with
      | none =>
        rw [ewmGo] at hy
        rcases List.mem_cons.mp hy with h | h
        · subst h; injection hv with hv2; rw [← hv2]; exact hm0
        · exact ih (fun z hz => hxs z (List.mem_cons_of_mem _ hz)) (some mv)
            (fun u hu => by injection hu with h2; rw [← h2]; exact hm0)
            (wt * (1 - a)) (mul_nonneg hwt ha1) ha1 y h v hv
      | some xv =>
        have hx0 : 0 ≤ xv := hxs (some xv) (List.mem_cons_self _ _) xv rfl
        have hd : 0 ≤ wt * (1 - a) := mul_nonneg hwt ha1
        have hden : 0 < wt * (1 - a) + a := by linarith
        have hm2 : 0 ≤ (wt * (1 - a) * mv + a * xv) / (wt * (1 - a) + a) := by
          apply div_nonneg _ (le_of_lt hden)
          have := mul_nonneg hd hm0
          have := mul_nonneg (le_of_lt ha) hx0
          linarith
        rw [ewmGo] at hy
        rcases List.mem_cons.mp hy with h | h
        · subst h; injection hv with hv2; rw [← hv2]; exact hm2
        · exact ih (fun z hz => hxs z (List.mem_cons_of_mem _ hz)) _
            (fun u hu => by injection hu with h2; rw [← h2]; exact hm2) 1 (by norm_num) ha1 y h v hv

/-- The RSI combination formula stays inside [0, 100] on nonnegative
average gain/loss. -/
theorem rsiCombine_bounds (g l : OQ) (hg : ∀ u : ℚ, g = some u → 0 ≤ u)
    (hl : ∀ u : ℚ, l = some u → 0 ≤ u) (v : ℚ) (hv : rsiCombine g l = some v) :
    0 ≤ v ∧ v ≤ 100 := by
  cases g with
  | none => simp [rsiCombine] at hv
  | some gv =>
    cases l with
    | none => simp [rsiCombine] at hv
    | some lv =>
      have hg0 : 0 ≤ gv := hg gv rfl
      have hl0 : 0 ≤ lv := hl lv rfl
      rw [rsiCombine] at hv
      by_cases hlz : lv = 0
      · rw [if_pos hlz] at hv
        by_cases hgz : gv = 0
        · simp [hgz] at hv
        · rw [if_neg hgz] at hv
          injection hv with hv2
          rw [← hv2]; norm_num
      · rw [if_neg hlz] at hv
        injection hv with hv2
        have hlp : 0 < lv := lt_of_le_of_ne hl0 (Ne.symm hlz)
        have hrs : 0 ≤ gv / lv := div_nonneg hg0 (le_of_lt hlp)
        have hden : (0 : ℚ) < 1 + gv / lv := by linarith
        have hq1 : 0 < 100 / (1 + gv / lv) := by positivity
        have hq2 : 100 / (1 + gv / lv) ≤ 100 := by
          rw [div_le_iff₀ hden]; nlinarith
        constructor
        · rw [← hv2]; linarith
        · rw [← hv2]; linarith

/-- Every defined value of a `calculate_rsi` series lies in [0, 100]. -/
theorem rsiSeries_mem_bounds (window : Nat) (hw : 1 ≤ window) (xs : List OQ)
    (x : OQ) (hx : x ∈ rsiSeries window xs) (v : ℚ) (hv : x = some v) :
    0 ≤ v ∧ v ≤ 100 := by
  have hwq : (0 : ℚ) < (window : ℚ) := by exact_mod_cast Nat.pos_of_ne_zero (by omega)
  have ha : (0 : ℚ) < 1 / (window : ℚ) := by positivity
  have ha1 : 1 - 1 / (window : ℚ) ≥ 0 := by
    have : 1 / (window : ℚ) ≤ 1 := by
      rw [div_le_one hwq]; exact_mod_cast hw
    linarith
  rw [rsiSeries] at hx
  rcases zipWith_mem_decomp rsiCombine _ _ x hx with ⟨g, l, hgmem, hlmem, hxc⟩
  have hgainnn : ∀ z ∈ (diff1 xs).map (Option.map fun v => if v < 0 then 0 else v),
      ∀ u : ℚ, z = some u → 0 ≤ u := by
    intro z hz u hu
    rcases List.mem_map.mp hz with ⟨w, _, hwz⟩
    rw [← hwz] at hu
    cases w with
    | none => simp at hu
    | some wv =>
      simp only [Option.map_some'] at hu
      injection hu with hu2
      rw [← hu2]
      by_cases hneg : wv < 0 <;> simp [hneg]
      linarith
  have hlossnn : ∀ z ∈ ((diff1 xs).map (Option.map fun v => if v > 0 then 0 else v)).map
      (Option.map abs), ∀ u : ℚ, z = some u → 0 ≤ u := by
    intro z hz u hu
    rcases List.mem_map.mp hz with ⟨w, _, hwz⟩
    rw [← hwz] at hu
    cases w with
    | none => simp at hu
    | some wv =>
      simp only [Option.map_some'] at hu
      injection hu with hu2
      rw [← hu2]
      exact abs_nonneg wv
  have hg := ewmGo_nonneg (1 / (window : ℚ)) ha _ hgainnn none (by simp) 1 (by norm_num) ha1
    g hgmem
  have hl := ewmGo_nonneg (1 / (window : ℚ)) ha _ hlossnn none (by simp) 1 (by norm_num) ha1
    l hlmem
  exact rsiCombine_bounds g l hg hl v (hxc ▸ hv)

theorem getD_some_mem (l : List OQ) (k : Nat) (v : ℚ) (h : l.getD k none = some v) :
    some v ∈ l := by
  rw [List.getD_eq_getElem?_getD] at h
  cases hk : l[k]? with
  | none => rw [hk] at h; simp at h
  | some z => rw [hk] at h; simp at h; rw [h] at hk; exact List.getElem?_mem hk

/-- A successful serving result equals the `ok` of its payload. -/
theorem eq_ok_of_isOk (e : Except PredErr PredResult) (d : PredResult)
    (h : e.isOk = true) : e = .ok (resultOr e d) := by
  cases e with
  | ok r => rfl
  | error x => simp [Except.isOk, Except.toBool] at h

end Lemmas

section Claims

set_option maxRecDepth 400000

attribute [local semireducible] Rat.add Rat.mul Rat.inv Rat.sub Rat.ofScientific

/-- C1.  The claim says `future_volatility[t]` is the ddof-1 standard
deviation of the forward window `log_return[t+1 .. t+windowSize]`, leaving
exactly the last `windowSize` rows of each symbol undefined.  The source
(`x.shift(-1).rolling(window_size).std()`) instead aggregates the pandas
backward window of the once-advanced series, i.e. `log_return[t-w+2 .. t+1]`,
which contradicts the function's own docstring (std of the next N days'
log returns).  On eight constant-price bars with window 5 the code defines
the target exactly on rows 4, 5 and 6 (0-based) — rows 4-6 lie inside the
trailing five — and leaves rows 0-3 and 7 undefined, while the claimed
forward target is defined exactly on rows 0-2 and undefined on the trailing
five. -/
theorem C1_future_volatility_window_is_backward :
    ((calculate_future_volatility (fun _ => 0) id constBars8 5).map TRow.future_volatility =
      [none, none, none, none, some 0, some 0, some 0, none]) ∧
    (specFutureVolatility id 5
        ((calculate_future_volatility (fun _ => 0) id constBars8 5).map TRow.log_return) =
      [some 0, some 0, some 0, none, none, none, none, none]) := by
  decide

/-- C2 (amended).  Whenever single-symbol predict succeeds, the returned
prediction series, the valid-prediction count, the metrics and the
actual-versus-predicted table are all built from exactly the scoreable rows
(feature-complete rows whose `future_volatility` is defined), aligned by
row identity; feature-complete rows without a target receive no entry in
the returned series. -/
theorem C2_predictions_cover_scoreable_rows_only (ln sq : ℚ → ℚ) (model : List ℚ → ℚ)
    (source : String → Option (List Bar)) (code : String) (w : Nat) (bars : List Bar)
    (hb : source code = some bars) (r : PredResult)
    (hr : predict ln sq model source code w = .ok r) :
    r.predictions = (scoreableRows ln sq w bars).map
        (fun x => (x.bar.trade_date, model (featVec x))) ∧
    r.valid_predictions = (scoreableRows ln sq w bars).length ∧
    r.metrics = mkMetrics sq
        ((scoreableRows ln sq w bars).map fun x => x.future_volatility.getD 0)
        ((scoreableRows ln sq w bars).map fun x => model (featVec x)) ∧
    r.actual_vs_predicted = (scoreableRows ln sq w bars).map
        (fun x => (x.bar.trade_date, x.future_volatility.getD 0, model (featVec x))) := by
  simp only [predict, hb] at hr
  by_cases hempty : bars.isEmpty
  · rw [if_pos hempty] at hr
    exact absurd hr (by simp)
  · rw [if_neg hempty] at hr
    by_cases hx : ((servingFeatures ln sq w bars).filter xComplete).isEmpty
    · rw [if_pos hx] at hr
      exact absurd hr (by simp)
    · rw [if_neg hx] at hr
      injection hr with hr2
      rw [← hr2]
      refine ⟨rfl, by simp [scoreableRows], rfl, rfl⟩

/-- Witness for C2: on a 21-bar alternating series the hypotheses hold and
the returned prediction series is the map over the scoreable rows. -/
theorem C2_predictions_cover_scoreable_rows_only_witness :
    ((fun _ => some (altBars 21) : String → Option (List Bar)) "A" = some (altBars 21)) ∧
    ((predict lnQ id (fun _ => 0) (fun _ => some (altBars 21)) "A" 5).isOk = true) ∧
    ((resultOr (predict lnQ id (fun _ => 0) (fun _ => some (altBars 21)) "A" 5)
        emptyResult).predictions =
      (scoreableRows lnQ id 5 (altBars 21)).map (fun x => (x.bar.trade_date, (0 : ℚ)))) :=
  ⟨rfl, by decide,
    (C2_predictions_cover_scoreable_rows_only lnQ id (fun _ => 0)
      (fun _ => some (altBars 21)) "A" 5 (altBars 21) rfl _
      (eq_ok_of_isOk _ emptyResult (by decide))).1⟩

/-- Counterexample to C2 as stated: on a 21-bar series the feature-complete
rows are the two of dates 20240120 and 20240121, the second of which has no
defined target, yet the returned prediction series covers only 20240120 —
a feature-complete prediction-only row receives no predicted value. -/
theorem C2_counterexample_trailing_row_unpredicted :
    (((servingFeatures lnQ id 5 (altBars 21)).filter xComplete).map
        (fun r => r.bar.trade_date) = [20240120, 20240121]) ∧
    (((servingFeatures lnQ id 5 (altBars 21)).filter xComplete).map
        (fun r => r.future_volatility.isSome) = [true, false]) ∧
    ((predictionsOf (predict lnQ id (fun _ => 0) (fun _ => some (altBars 21)) "A" 5)).map
        Prod.fst = [20240120]) := by
  decide

/-- C3.  `predict_batch` returns one entry per requested symbol: the result
has the length of the input list, and the entry at every position is the
try/except image of that position's symbol alone (so one symbol's failure
cannot disturb any other position).  The spec's three-symbol scenario with
a failing middle symbol yields [success, error, success]. -/
theorem C3_batch_isolation (ln sq : ℚ → ℚ) (model : List ℚ → ℚ)
    (source : String → Option (List Bar)) (codes : List String) (w : Nat) :
    ((predict_batch ln sq model source codes w).length = codes.length) ∧
    (∀ i : Nat, (predict_batch ln sq model source codes w)[i]? =
      (codes[i]?).map (batchStep ln sq model source w)) ∧
    ((predict_batch lnQ id (fun _ => 0) scenarioSource
        ["VALID1", "BAD_CODE", "VALID2"] 5).map isFailed = [false, true, false]) := by
  refine ⟨List.length_map _ _, fun i => ?_, by decide⟩
  rw [predict_batch, List.getElem?_map]

/-- C4.  `prepare_data` with the default 0.70/0.15 ratios sorts the whole
table chronologically and cuts it at `trainSize = floor(n * 0.70)` and
`valSize = floor(n * 0.15)`: the three segments have exactly those lengths,
partition the sorted table as contiguous blocks in order (hence they are
disjoint position ranges and every train position precedes every validation
position, which precedes every test position), and their lengths add up to
the total row count. -/
theorem C4_chronological_split (df : List FRow) :
    ((prepare_data df (7 / 10) (3 / 20)).1.length =
        (⌊(df.length : ℚ) * (7 / 10)⌋).toNat) ∧
    ((prepare_data df (7 / 10) (3 / 20)).2.1.length =
        (⌊(df.length : ℚ) * (3 / 20)⌋).toNat) ∧
    ((prepare_data df (7 / 10) (3 / 20)).1.length +
        (prepare_data df (7 / 10) (3 / 20)).2.1.length +
        (prepare_data df (7 / 10) (3 / 20)).2.2.length = df.length) ∧
    ((prepare_data df (7 / 10) (3 / 20)).1 ++ (prepare_data df (7 / 10) (3 / 20)).2.1 ++
        (prepare_data df (7 / 10) (3 / 20)).2.2 = List.insertionSort dateLe df) := by
  have hfl : ∀ q : ℚ, q.floor = ⌊q⌋ := fun q => rfl
  have hlen : (List.insertionSort dateLe df).length = df.length :=
    List.length_insertionSort dateLe df
  set s := List.insertionSort dateLe df with hs
  set n := df.length with hn
  have h710 : ⌊(n : ℚ) * (7 / 10)⌋ ≤ (n : ℤ) := by
    have h1 : ((n : ℚ) * (7 / 10)) ≤ (n : ℚ) := by
      have : (0 : ℚ) ≤ (n : ℚ) := by positivity
      linarith
    calc ⌊(n : ℚ) * (7 / 10)⌋ ≤ ⌊(n : ℚ)⌋ := Int.floor_mono h1
    _ = n := Int.floor_natCast n
  have h710nn : (0 : ℤ) ≤ ⌊(n : ℚ) * (7 / 10)⌋ := by
    apply Int.floor_nonneg.mpr; positivity
  have h320nn : (0 : ℤ) ≤ ⌊(n : ℚ) * (3 / 20)⌋ := by
    apply Int.floor_nonneg.mpr; positivity
  have hsum : ⌊(n : ℚ) * (7 / 10)⌋ + ⌊(n : ℚ) * (3 / 20)⌋ ≤ (n : ℤ) := by
    have h1 := Int.floor_le ((n : ℚ) * (7 / 10))
    have h2 := Int.floor_le ((n : ℚ) * (3 / 20))
    have h3 : ((n : ℚ) * (7 / 10)) + ((n : ℚ) * (3 / 20)) ≤ (n : ℚ) := by
      have : (0 : ℚ) ≤ (n : ℚ) := by positivity
      linarith
    have h4 : ((((⌊(n : ℚ) * (7 / 10)⌋ + ⌊(n : ℚ) * (3 / 20)⌋) : ℤ) : ℚ)) ≤ (n : ℚ) := by
      push_cast
      linarith
    exact_mod_cast h4
  set ts := (⌊(n : ℚ) * (7 / 10)⌋).toNat with hts
  set vs := (⌊(n : ℚ) * (3 / 20)⌋).toNat with hvs
  have htsn : ts ≤ n := by
    rw [hts]; exact Int.toNat_le.mpr h710
  have htvn : ts + vs ≤ n := by
    rw [hts, hvs]
    have heq : (⌊(n : ℚ) * (7 / 10)⌋).toNat + (⌊(n : ℚ) * (3 / 20)⌋).toNat =
        (⌊(n : ℚ) * (7 / 10)⌋ + ⌊(n : ℚ) * (3 / 20)⌋).toNat := by
      omega
    rw [heq]
    exact Int.toNat_le.mpr hsum
  have hp : prepare_data df (7 / 10) (3 / 20) =
      (s.take ts, (s.drop ts).take vs, s.drop (ts + vs)) := by
    rw [prepare_data]
    simp only [hfl, ← hs, hlen, ← hn, ← hts, ← hvs]
  rw [hp]
  refine ⟨?_, ?_, ?_, ?_⟩
  · simp [List.length_take, hlen, htsn]
  · simp only [List.length_take, List.length_drop, hlen]
    omega
  · simp only [List.length_take, List.length_drop, hlen]
    omega
  · have h1 : (s.drop ts).take vs ++ s.drop (ts + vs) = s.drop ts := by
      have h2 : s.drop (ts + vs) = (s.drop ts).drop vs := by
        rw [List.drop_drop]
      rw [h2, List.take_append_drop]
    rw [List.append_assoc, h1, List.take_append_drop]

/-- C5.  Single-symbol predict fails with DataUnavailable exactly when the
source yields no rows (None or an empty frame), fails with
InsufficientHistory exactly when rows were fetched but no feature-complete
row survives the per-row NaN cleaning, and succeeds in every remaining
case; the errors are the function's result, so they surface to the caller. -/
theorem C5_predict_error_cases (ln sq : ℚ → ℚ) (model : List ℚ → ℚ)
    (source : String → Option (List Bar)) (code : String) (w : Nat) :
    (predict ln sq model source code w = .error .dataUnavailable ↔
      (source code = none ∨ source code = some [])) ∧
    (predict ln sq model source code w = .error .insufficientHistory ↔
      (∃ bars, source code = some bars ∧ bars.isEmpty = false ∧
        (servingFeatures ln sq w bars).filter xComplete = [])) ∧
    ((predict ln sq model source code w).isOk = true ↔
      (∃ bars, source code = some bars ∧ bars.isEmpty = false ∧
        (servingFeatures ln sq w bars).filter xComplete ≠ [])) := by
  cases hsrc : source code with
  | none => simp [predict, hsrc, Except.isOk, Except.toBool]
  | some bars =>
    by_cases hempty : bars.isEmpty
    · have hb : bars = [] := List.isEmpty_iff.mp hempty
      subst hb
      simp [predict, hsrc, Except.isOk, Except.toBool]
    · have hbne : bars ≠ [] := by simpa [List.isEmpty_iff] using hempty
      by_cases hx : ((servingFeatures ln sq w bars).filter xComplete).isEmpty
      · have hx2 := List.isEmpty_iff.mp hx
        have hx3 : ∀ a ∈ servingFeatures ln sq w bars, xComplete a = false := by
          intro a ha
          by_contra hc
          have hmem : a ∈ (servingFeatures ln sq w bars).filter xComplete :=
            List.mem_filter.mpr ⟨ha, by revert hc; cases xComplete a <;> simp⟩
          rw [hx2] at hmem
          simp at hmem
        simp [predict, hsrc, hempty, hx, hx2, hx3, hbne, Except.isOk, Except.toBool]
        exact hx3
      · have hx2 : (servingFeatures ln sq w bars).filter xComplete ≠ [] := by
          simpa [List.isEmpty_iff] using hx
        have hx3 : ∃ x ∈ servingFeatures ln sq w bars, xComplete x = true := by
          rcases List.exists_mem_of_ne_nil _ hx2 with ⟨a, ha⟩
          have hm := List.mem_filter.mp ha
          exact ⟨a, hm.1, hm.2⟩
        simp [predict, hsrc, hempty, hx, hx2, hbne, hx3, Except.isOk, Except.toBool]

/-- C6.  `clean_data` retains exactly the rows all of whose generated
columns are defined: a row survives cleaning iff it was present and
NaN-free, so no row with an undefined column remains. -/
theorem C6_clean_drops_exactly_incomplete_rows (df : List FRow) (r : FRow) :
    r ∈ clean_data df ↔ r ∈ df ∧ frowComplete r = true := by
  rw [clean_data]
  exact List.mem_filter

/-- C7 (amended).  On a scored subset of at least two rows whose ground
truth has zero variance, the metric computation does not fail and reports
R² as the sklearn fallback value — 1.0 for a perfect fit, 0.0 otherwise —
rather than a null value; a null R² arises only from the fewer-than-two-
samples NaN. -/
theorem C7_zero_variance_r2_is_fallback_value (sq : ℚ → ℚ) (actual preds : List ℚ)
    (h2 : 2 ≤ actual.length)
    (h0 : (actual.map fun a => (a - listMean actual) ^ 2).sum = 0) :
    (mkMetrics sq actual preds).r2 =
      some (if (List.zipWith (fun a p => (a - p) ^ 2) actual preds).sum = 0 then 1 else 0) := by
  rw [mkMetrics, if_neg (by omega)]
  simp only
  rw [r2_score, if_neg (by omega)]
  simp only [h0, if_pos rfl]
  split_ifs <;> rfl

/-- Witness for C7: actual [1, 1] (zero variance) against predictions
[0, 0] reports R² = 0. -/
theorem C7_zero_variance_r2_is_fallback_value_witness :
    (2 ≤ ([1, 1] : List ℚ).length) ∧
    ((([1, 1] : List ℚ).map fun a => (a - listMean [1, 1]) ^ 2).sum = 0) ∧
    ((mkMetrics id [1, 1] [0, 0]).r2 =
      some (if (List.zipWith (fun a p => (a - p) ^ 2) ([1, 1] : List ℚ) [0, 0]).sum = 0
        then 1 else 0)) :=
  ⟨by norm_num, by decide,
    C7_zero_variance_r2_is_fallback_value id [1, 1] [0, 0] (by norm_num)
      (by decide)⟩

/-- Counterexample to C7 as stated: a served request whose two scoreable
rows carry the identical actual volatility 27/40 (zero variance) against a
constant-zero model reports R² = 0.0, not a null value. -/
theorem C7_counterexample_r2_reported_zero :
    (((scoreableRows lnQ id 5 (altBars 22)).map fun r => r.future_volatility.getD 0) =
      [27 / 40, 27 / 40]) ∧
    ((metricsOf (predict lnQ id (fun _ => 0) (fun _ => some (altBars 22)) "A" 5)).map
        Metrics.r2 = some (some 0)) := by
  decide

/-- C8.  Two bar tables that agree on the rows of a symbol S produce
identical derived rows for S through target construction and feature
generation: no rolling, lag or smoothing computation mixes rows of
different symbols. -/
theorem C8_per_symbol_isolation (ln sq : ℚ → ℚ) (w : Nat) (S : String)
    (df1 df2 : List Bar)
    (h : df1.filter (fun b => decide (b.ts_code = S)) =
         df2.filter (fun b => decide (b.ts_code = S))) :
    (add_features (calculate_future_volatility ln sq df1 w)).filter
        (fun r => decide (r.bar.ts_code = S)) =
      (add_features (calculate_future_volatility ln sq df2 w)).filter
        (fun r => decide (r.bar.ts_code = S)) := by
  rw [add_features_filter, add_features_filter,
    calculate_future_volatility_filter, calculate_future_volatility_filter, h]

/-- Witness for C8: two concrete tables share their "A" rows but differ on
a "B" row; the derived "A" rows coincide. -/
theorem C8_per_symbol_isolation_witness :
    (([mkBar "A" 20240101 1, mkBar "B" 20240101 2] : List Bar).filter
        (fun b => decide (b.ts_code = "A")) =
      ([mkBar "A" 20240101 1, mkBar "B" 20240102 3] : List Bar).filter
        (fun b => decide (b.ts_code = "A"))) ∧
    ((add_features (calculate_future_volatility lnQ id
          [mkBar "A" 20240101 1, mkBar "B" 20240101 2] 5)).filter
        (fun r => decide (r.bar.ts_code = "A")) =
      (add_features (calculate_future_volatility lnQ id
          [mkBar "A" 20240101 1, mkBar "B" 20240102 3] 5)).filter
        (fun r => decide (r.bar.ts_code = "A"))) :=
  ⟨by decide,
    C8_per_symbol_isolation lnQ id 5 "A" _ _ (by decide)⟩

/-- C9.  Every defined RSI_14 value produced by `add_features`, on any
input table, lies in the closed interval [0, 100]. -/
theorem C9_rsi_bounded (df : List TRow) (r : FRow) (hr : r ∈ add_features df)
    (v : ℚ) (hv : r.RSI_14 = some v) : 0 ≤ v ∧ v ≤ 100 := by
  rcases groupWalk_mem _ _ df r hr with ⟨g, b, k, _, hrm⟩
  rw [hrm] at hv
  have hv2 : (rsiSeries 14 (g.map fun x => some x.bar.close)).getD k none = some v := hv
  exact rsiSeries_mem_bounds 14 (by norm_num) _ _ (getD_some_mem _ k v hv2) v rfl

/-- Witness for C9: the second row of a two-row rising series has
RSI_14 = 100, inside the bounds. -/
theorem C9_rsi_bounded_witness :
    ((add_features rsiPair).getD 1 emptyFRow ∈ add_features rsiPair) ∧
    (((add_features rsiPair).getD 1 emptyFRow).RSI_14 = some 100) ∧
    (0 ≤ (100 : ℚ) ∧ (100 : ℚ) ≤ 100) :=
  ⟨by decide, by decide,
    C9_rsi_bounded rsiPair ((add_features rsiPair).getD 1 emptyFRow) (by decide) 100
      (by decide)⟩

/-- C10.  The batch summary counts exactly the result entries that carry a
metrics record with a non-null MAE; a symbol whose prediction succeeds but
has no scoreable row (a 20-bar series: one feature-complete row, no
defined target) contributes a success payload with null metrics to the
result list yet is excluded from the success count. -/
theorem C10_success_count_requires_nonnull_mae :
    (∀ results : List BatchEntry, success_count results =
      (results.filter fun e =>
        ((entryMetrics e).map fun m => m.mae.isSome).getD false).length) ∧
    ((predict_batch lnQ id (fun _ => 0) (fun _ => some (altBars 20)) ["A"] 5).length = 1) ∧
    (isFailed (entryOr (predict_batch lnQ id (fun _ => 0)
        (fun _ => some (altBars 20)) ["A"] 5) 0) = false) ∧
    ((entryMetrics (entryOr (predict_batch lnQ id (fun _ => 0)
        (fun _ => some (altBars 20)) ["A"] 5) 0)).map Metrics.mae = some none) ∧
    (success_count (predict_batch lnQ id (fun _ => 0)
        (fun _ => some (altBars 20)) ["A"] 5) = 0) := by
  constructor
  · intro results
    have hp : (fun e => match e with
          | BatchEntry.done r => r.metrics.mae.isSome
          | BatchEntry.failed _ _ => false) =
        (fun e => ((entryMetrics e).map fun m => m.mae.isSome).getD false) := by
      funext e
      cases e <;> rfl
    rw [success_count, List.countP_eq_length_filter, hp]
  · exact ⟨by decide, by decide,
      by decide, by decide⟩

end Claims

end VolPipe

